import Mathlib

/-
Verification of the IoTConnect self-updating client (iotc-pnp-app.py).

The development shallowly embeds the relevant parts of the program:

* the Shared JSON Store (`safe_read_json` / `safe_write_json`), together with a
  model of the JSON codec used by the Python standard library
  (`json.dump(data, f, indent=4)` and `json.load(f)`): numbers are modelled as
  integers (the program only ever writes integer timestamps), strings are
  escaped the way the codec escapes them with `ensure_ascii=False`
  (quote, backslash, and controls; the round-trip behaviour is identical);
* the package helper `extract_and_run_tar_gz`, the command callback
  `on_command` and the OTA callback `on_ota`, embedded as functions from an
  environment (outcomes of the external black-box operations: HTTP download,
  tar extraction, install-script execution) to a trace of observable actions;
* the main session loop, embedded as a function from a per-iteration event
  list to the resulting exit outcome and cleanup record;
* the file-lock discipline of the Shared JSON Store, embedded as the sequence
  of lock events each exit path performs, with the OS rule that closing a file
  descriptor releases the flock held through it.
-/

namespace IotcPnp

/-! ## Characters and whitespace -/

def isWsChar (c : Char) : Bool := c = ' ' || c = '\t' || c = '\n' || c = '\r'

def skipWs : List Char → List Char
  | [] => []
  | c :: cs => if isWsChar c then skipWs cs else c :: cs

/-- The character `{` (written via its code point). -/
def lbrace : Char := Char.ofNat 123

/-- The character `}` (written via its code point). -/
def rbrace : Char := Char.ofNat 125

/-! ## JSON documents

Model of the JSON values handled by the Python `json` module, with numbers
restricted to integers (floating point is outside the model); strings are
lists of characters. Objects keep their members as an ordered association
list, which is how `json.dump` emits them and how `json.load` (with ordered
dicts) returns them. -/

inductive Json where
  | null : Json
  | bool (b : Bool) : Json
  | num (n : Int) : Json
  | str (s : List Char) : Json
  | arr (elems : List Json) : Json
  | obj (members : List (List Char × Json)) : Json

/-! ## Serialization: model of json.dump(data, f, indent=4) -/

def digitChar (d : Nat) : Char :=
  if d = 0 then '0' else if d = 1 then '1' else if d = 2 then '2'
  else if d = 3 then '3' else if d = 4 then '4' else if d = 5 then '5'
  else if d = 6 then '6' else if d = 7 then '7' else if d = 8 then '8'
  else '9'

def serNatAux (n : Nat) (acc : List Char) : List Char :=
  if h : n = 0 then acc
  else serNatAux (n / 10) (digitChar (n % 10) :: acc)
termination_by n
decreasing_by exact Nat.div_lt_self (Nat.pos_of_ne_zero h) (by decide)

/-- Decimal digits of a natural number, as Python `str` produces them. -/
def serNat (n : Nat) : List Char := if n = 0 then ['0'] else serNatAux n []

/-- Decimal rendering of an integer, as Python `str` produces it. -/
def serInt : Int → List Char
  | .ofNat m => serNat m
  | .negSucc m => '-' :: serNat (m + 1)

def hexDigitChar (d : Nat) : Char :=
  if d < 10 then digitChar d
  else if d = 10 then 'a' else if d = 11 then 'b' else if d = 12 then 'c'
  else if d = 13 then 'd' else if d = 14 then 'e' else 'f'

/-- Escaping of a single character inside a JSON string, as the `json`
serializer performs it: quote and backslash get a backslash escape, the named
control characters get their short escapes, the remaining control characters
are written as a 4-hex-digit u-escape, and every other character is written
literally. -/
def escChar (c : Char) : List Char :=
  if c = '"' then ['\\', '"']
  else if c = '\\' then ['\\', '\\']
  else if c = '\n' then ['\\', 'n']
  else if c = '\t' then ['\\', 't']
  else if c = '\r' then ['\\', 'r']
  else if c.toNat = 8 then ['\\', 'b']
  else if c.toNat = 12 then ['\\', 'f']
  else if c.toNat < 32 then
    ['\\', 'u', '0', '0', hexDigitChar (c.toNat / 16), hexDigitChar (c.toNat % 16)]
  else [c]

def serStrBody : List Char → List Char
  | [] => []
  | c :: cs => escChar c ++ serStrBody cs

/-- A JSON string literal: opening quote, escaped body, closing quote. -/
def serStr (s : List Char) : List Char := '"' :: (serStrBody s ++ ['"'])

/-- The indentation emitted at nesting level `L` by `indent=4`. -/
def indentChars (L : Nat) : List Char := List.replicate (4 * L) ' '

mutual

/-- Model of the text `json.dump(data, f, indent=4)` writes for a value at
nesting level `L`: items of a non-empty array or object are separated by a
comma, a newline and the deeper indentation, and the closing bracket sits on
its own line at the enclosing indentation; empty containers are written
without any inner whitespace; object keys are followed by a colon and one
space. -/
def serJson : Nat → Json → List Char
  | _, .null => ['n', 'u', 'l', 'l']
  | _, .bool true => ['t', 'r', 'u', 'e']
  | _, .bool false => ['f', 'a', 'l', 's', 'e']
  | _, .num n => serInt n
  | _, .str s => serStr s
  | _, .arr [] => ['[', ']']
  | L, .arr (x :: xs) =>
      '[' :: '\n' :: (indentChars (L + 1) ++ serJson (L + 1) x ++
        serArrTail (L + 1) xs ++ '\n' :: (indentChars L ++ [']']))
  | _, .obj [] => [lbrace, rbrace]
  | L, .obj ((k, v) :: ms) =>
      lbrace :: '\n' :: (indentChars (L + 1) ++ serStr k ++
        ':' :: ' ' :: serJson (L + 1) v ++
        serObjTail (L + 1) ms ++ '\n' :: (indentChars L ++ [rbrace]))

/-- The serialized remainder of an array after its first element. -/
def serArrTail : Nat → List Json → List Char
  | _, [] => []
  | L, x :: xs => ',' :: '\n' :: (indentChars L ++ serJson L x ++ serArrTail L xs)

/-- The serialized remainder of an object after its first member. -/
def serObjTail : Nat → List (List Char × Json) → List Char
  | _, [] => []
  | L, (k, v) :: ms =>
      ',' :: '\n' :: (indentChars L ++ serStr k ++ ':' :: ' ' :: serJson L v ++
        serObjTail L ms)

end

/-! ## Parsing: model of json.load

A recursive-descent parser with explicit fuel (the fuel bounds the nesting of
values, mirroring the recursion of the library decoder). It accepts any
whitespace between tokens, the literals, integer numbers, strings with the
standard escapes including 4-hex-digit u-escapes, arrays and objects. -/

def unescape (c : Char) : Option Char :=
  if c = '"' then some '"'
  else if c = '\\' then some '\\'
  else if c = '/' then some '/'
  else if c = 'n' then some '\n'
  else if c = 't' then some '\t'
  else if c = 'r' then some '\r'
  else if c = 'b' then some (Char.ofNat 8)
  else if c = 'f' then some (Char.ofNat 12)
  else none

def hexVal (c : Char) : Option Nat :=
  if c.isDigit then some (c.toNat - 48)
  else if 'a' ≤ c ∧ c ≤ 'f' then some (c.toNat - 87)
  else if 'A' ≤ c ∧ c ≤ 'F' then some (c.toNat - 55)
  else none

/-- Parse the body of a JSON string literal (the opening quote has already
been consumed), returning the decoded characters and the input remaining
after the closing quote. Astral characters encoded as surrogate pairs are
outside the model (the serializer model never emits them). -/
def parseStrBody : List Char → Option (List Char × List Char)
  | [] => none
  | c :: cs =>
    if c = '"' then some ([], cs)
    else if c = '\\' then
      match cs with
      | [] => none
      | e :: cs2 =>
        if e = 'u' then
          match cs2 with
          | h1 :: h2 :: h3 :: h4 :: cs3 =>
            match hexVal h1, hexVal h2, hexVal h3, hexVal h4 with
            | some v1, some v2, some v3, some v4 =>
              match parseStrBody cs3 with
              | some (s, r) =>
                  some (Char.ofNat (((v1 * 16 + v2) * 16 + v3) * 16 + v4) :: s, r)
              | none => none
            | _, _, _, _ => none
          | _ => none
        else
          match unescape e with
          | some d =>
            match parseStrBody cs2 with
            | some (s, r) => some (d :: s, r)
            | none => none
          | none => none
    else
      match parseStrBody cs with
      | some (s, r) => some (c :: s, r)
      | none => none

/-- Longest prefix of decimal digits, and the remaining input. -/
def takeDigits : List Char → List Char × List Char
  | [] => ([], [])
  | c :: cs =>
    if c.isDigit then
      let p := takeDigits cs
      (c :: p.1, p.2)
    else ([], c :: cs)

/-- Value of a big-endian list of decimal digit characters. -/
def digitsVal (ds : List Char) : Nat :=
  ds.foldl (fun a c => 10 * a + (c.toNat - 48)) 0

mutual

def parseValue : Nat → List Char → Option (Json × List Char)
  | 0, _ => none
  | f + 1, cs =>
    match skipWs cs with
    | [] => none
    | c :: cs1 =>
      if c = 'n' then
        match cs1 with
        | 'u' :: 'l' :: 'l' :: r => some (.null, r)
        | _ => none
      else if c = 't' then
        match cs1 with
        | 'r' :: 'u' :: 'e' :: r => some (.bool true, r)
        | _ => none
      else if c = 'f' then
        match cs1 with
        | 'a' :: 'l' :: 's' :: 'e' :: r => some (.bool false, r)
        | _ => none
      else if c = '"' then
        match parseStrBody cs1 with
        | some (s, r) => some (.str s, r)
        | none => none
      else if c = '-' then
        match takeDigits cs1 with
        | ([], _) => none
        | (ds, r) => some (.num (-(digitsVal ds : Int)), r)
      else if c.isDigit then
        match takeDigits (c :: cs1) with
        | ([], _) => none
        | (ds, r) => some (.num (digitsVal ds), r)
      else if c = '[' then
        match skipWs cs1 with
        | [] => none
        | d :: r =>
          if d = ']' then some (.arr [], r)
          else
            match parseValue f (d :: r) with
            | none => none
            | some (j, r1) =>
              match parseElems f r1 with
              | none => none
              | some (js, r2) => some (.arr (j :: js), r2)
      else if c = lbrace then
        match skipWs cs1 with
        | [] => none
        | d :: r =>
          if d = rbrace then some (.obj [], r)
          else if d = '"' then
            match parseStrBody r with
            | none => none
            | some (k, r1) =>
              match skipWs r1 with
              | ':' :: r2 =>
                match parseValue f r2 with
                | none => none
                | some (v, r3) =>
                  match parseMembers f r3 with
                  | none => none
                  | some (ms, r4) => some (.obj ((k, v) :: ms), r4)
              | _ => none
          else none
      else none

/-- After one array element: either the closing bracket, or a comma and
further elements. -/
def parseElems : Nat → List Char → Option (List Json × List Char)
  | 0, _ => none
  | f + 1, cs =>
    match skipWs cs with
    | ']' :: r => some ([], r)
    | ',' :: r =>
      match parseValue f r with
      | none => none
      | some (j, r1) =>
        match parseElems f r1 with
        | none => none
        | some (js, r2) => some (j :: js, r2)
    | _ => none

/-- After one object member: either the closing brace, or a comma and
further members. -/
def parseMembers : Nat → List Char → Option (List (List Char × Json) × List Char)
  | 0, _ => none
  | f + 1, cs =>
    match skipWs cs with
    | [] => none
    | c :: r =>
      if c = rbrace then some ([], r)
      else if c = ',' then
        match skipWs r with
        | '"' :: r1 =>
          match parseStrBody r1 with
          | none => none
          | some (k, r2) =>
            match skipWs r2 with
            | ':' :: r3 =>
              match parseValue f r3 with
              | none => none
              | some (v, r4) =>
                match parseMembers f r4 with
                | none => none
                | some (ms, r5) => some ((k, v) :: ms, r5)
            | _ => none
        | _ => none
      else none

end

mutual

/-- Nesting measure of a value: an upper bound on the parser fuel the
serialized form needs. -/
def sizeJ : Json → Nat
  | .arr xs => 1 + sizeT xs
  | .obj ms => 1 + sizeM ms
  | _ => 1

def sizeT : List Json → Nat
  | [] => 1
  | x :: xs => 1 + sizeJ x + sizeT xs

def sizeM : List (List Char × Json) → Nat
  | [] => 1
  | (_, v) :: ms => 1 + sizeJ v + sizeM ms

end

/-- The exact character sequence `json.dump(data, f, indent=4)` writes. -/
def json_dump (data : Json) : List Char := serJson 0 data

/-- Model of `json.load(f)`: parse one value, demand only whitespace after
it; `none` is a raised decoding error. The fuel is one more than the input
length, which bounds any nesting the input can encode. -/
def json_load (content : List Char) : Option Json :=
  match parseValue (content.length + 1) content with
  | none => none
  | some (j, rest) => if skipWs rest = [] then some j else none

/-! ## The Shared JSON Store

`safe_read_json` and `safe_write_json` from the source, viewed functionally:
the filesystem maps a path to the character contents of the file at that
path (`none`: no such file). `safe_write_json` opens the file in `"w"` mode,
which truncates it, and writes the serialized document, fully replacing any
previous contents; `safe_read_json` parses the contents, `none` standing for
the raised `IOError`/`JSONDecodeError`. The lock discipline of the same two
functions is modelled separately below. -/

def FileSystem := String → Option (List Char)

def safe_write_json (fs : FileSystem) (path : String) (data : Json) : FileSystem :=
  fun p => if p = path then some (json_dump data) else fs p

def safe_read_json (fs : FileSystem) (path : String) : Option Json :=
  match fs path with
  | none => none
  | some content => json_load content

/-! ## Lock discipline of the Shared JSON Store

The same two functions viewed through the lock events they perform on the
buffer file. Both are written as

  with open(path, mode) as f:
      fcntl.flock(f, LOCK)
      body
      fcntl.flock(f, fcntl.LOCK_UN)

Python guarantees that the file object is closed when the `with` block is
left on any path, including an exception raised by the body (`json.load`
can raise a decode error, `json.dump`/write can raise an IO error), and the
OS releases an `fcntl.flock` lock when the file descriptor holding it is
closed. The functions below record, per exit path, exactly the events the
source performs; `runLockEvents` applies the OS semantics. -/

inductive LockEvent where
  | acquire : LockEvent
  | explicitRelease : LockEvent
  | closeFile : LockEvent
deriving DecidableEq

/-- Whether the flock is held after a sequence of events, starting from
`held`; closing the descriptor releases the lock it holds. -/
def runLockEvents : Bool → List LockEvent → Bool
  | held, [] => held
  | _, .acquire :: t => runLockEvents true t
  | _, .explicitRelease :: t => runLockEvents false t
  | _, .closeFile :: t => runLockEvents false t

/-- Lock events of `safe_read_json path`: if `open` raises, nothing happens;
otherwise the shared lock is taken, and if `json.load` raises the explicit
unlock is skipped but the `with` block still closes the file. -/
def safe_read_json_lockEvents (openOk parseOk : Bool) : List LockEvent :=
  if openOk then
    if parseOk then [.acquire, .explicitRelease, .closeFile]
    else [.acquire, .closeFile]
  else []

/-- Lock events of `safe_write_json path data`, same shape with the
exclusive lock and `json.dump` in place of the shared lock and `json.load`. -/
def safe_write_json_lockEvents (openOk dumpOk : Bool) : List LockEvent :=
  if openOk then
    if dumpOk then [.acquire, .explicitRelease, .closeFile]
    else [.acquire, .closeFile]
  else []

/-! ## The update engine and the callbacks

`extract_and_run_tar_gz`, `on_command` and `on_ota` are embedded as functions
from an environment giving the outcomes of the external black-box operations
(HTTP download, `tar` extraction, `bash install.sh`) to the ordered trace of
observable actions the code performs, plus the relevant results. -/

/-- Outcome of `subprocess.run(["bash", install.sh], check=True)`: normal
termination, a `CalledProcessError` (non-zero exit), or any other raised
exception. -/
inductive InstallOutcome where
  | ok : InstallOutcome
  | calledProcessError : InstallOutcome
  | otherError : InstallOutcome
deriving DecidableEq

def InstallOutcome.isOk : InstallOutcome → Bool
  | .ok => true
  | _ => false

/-- Environment for one `extract_and_run_tar_gz` call: whether
`tar -xzvf … --overwrite` exits cleanly, whether `install.sh` is a file in
the working directory after extraction, and how running it ends. -/
structure TarEnv where
  tarOk : Bool
  installShPresent : Bool
  installRun : InstallOutcome
deriving DecidableEq

/-- Command-buffer document written by `on_command` (the dict the source
builds before `safe_write_json`). -/
structure CommandDoc where
  command : String
  parameters : String
  timestamp : Nat
deriving DecidableEq

inductive AckStatus where
  | cmdFailed : AckStatus
  | cmdSuccessWithAck : AckStatus
deriving DecidableEq

inductive OtaStatus where
  | otaDownloading : OtaStatus
  | otaDownloadDone : OtaStatus
deriving DecidableEq

/-- Observable actions of the callbacks, in program order. -/
inductive Action where
  | httpGetReq (url : String) : Action
  | savePackage (name : String) : Action
  | sendCommandAck (status : AckStatus) (text : String) : Action
  | writeCommandBuffer (doc : CommandDoc) : Action
  | runTar (file : String) (ok : Bool) : Action
  | runInstallScript (ok : Bool) : Action
  | removeInstallScript : Action
  | downloadOta (url : String) (file : String) (ok : Bool) : Action
  | sendOtaAck (status : OtaStatus) : Action
  | logOtaFailure : Action
  | execv (path : String) (argv : List String) : Action
deriving DecidableEq

/-- `extract_and_run_tar_gz(targz_filename)`: run `tar`; if that raises a
`CalledProcessError` return `False`; otherwise, if `install.sh` exists, run
it and delete it whether or not the run succeeded (the success branch
deletes after the run, both `except` branches delete in the handler),
returning `True` exactly on a clean run; with no `install.sh` return
`True`. Result: (action trace, returned boolean). -/
def extract_and_run_tar_gz (env : TarEnv) (targz_filename : String) :
    List Action × Bool :=
  if env.tarOk then
    if env.installShPresent then
      ([.runTar targz_filename true, .runInstallScript env.installRun.isOk,
        .removeInstallScript], env.installRun.isOk)
    else ([.runTar targz_filename true], true)
  else ([.runTar targz_filename false], false)

/-- The boolean `extract_and_run_tar_gz` returns, as a function of its
environment alone. -/
def tarSuccess (env : TarEnv) : Bool :=
  env.tarOk && (!env.installShPresent || env.installRun.isOk)

/-- The C2dCommand message fields `on_command` looks at. -/
structure C2dCommand where
  command_name : String
  command_args : List String
  ack_id : Option String
deriving DecidableEq

/-- Environment for one `on_command` call: the result of
`requests.get(url)` (`none` means the call raised, `some code` the final
status code), the environment of the `extract_and_run_tar_gz` call on
`package.tar.gz`, `int(time.time())`, and the process identity
(`sys.executable`, `__file__`, and `sys.argv = argv0 :: argvTail`; the
source only ever reads `sys.argv[0]`). -/
structure CmdCtx where
  httpStatus : Option Nat
  tar : TarEnv
  now : Nat
  executable : String
  file : String
  argv0 : String
  argvTail : List String
deriving DecidableEq

inductive CmdOutcome where
  | returned : CmdOutcome
  | restarted (argv : List String) : CmdOutcome
  | raised : CmdOutcome
deriving DecidableEq

structure CmdResult where
  trace : List Action
  outcome : CmdOutcome
  buffer : Option CommandDoc
deriving DecidableEq

/-- `on_command(msg)` over environment `ctx`, with `prior` the command
buffer contents before the call. Mirrors the source: the `file-download`
command with exactly one argument downloads (saving only on status 200),
acknowledges success-with-ack, extracts, and then calls
`os.execv(sys.executable, [sys.executable, __file__] + [sys.argv[0]])`
unconditionally; with an argument-count violation it only acknowledges
failure; every other command is space-joined (leading space before each
argument), written to the command buffer with the current timestamp, and
acknowledged exactly when `msg.ack_id is not None`. -/
def on_command (ctx : CmdCtx) (prior : Option CommandDoc) (msg : C2dCommand) :
    CmdResult :=
  if msg.command_name = "file-download" then
    if msg.command_args.length = 1 then
      let url := msg.command_args.headD ""
      match ctx.httpStatus with
      | none => { trace := [.httpGetReq url], outcome := .raised, buffer := prior }
      | some code =>
        let dl : List Action :=
          if code = 200 then [.httpGetReq url, .savePackage "package.tar.gz"]
          else [.httpGetReq url]
        let statusMsg := "Downloading " ++ url ++ " to device"
        let ext := extract_and_run_tar_gz ctx.tar "package.tar.gz"
        let argv := [ctx.executable, ctx.file, ctx.argv0]
        { trace := dl ++ [.sendCommandAck .cmdSuccessWithAck statusMsg] ++
            ext.1 ++ [.execv ctx.executable argv],
          outcome := .restarted argv,
          buffer := prior }
    else
      { trace := [.sendCommandAck .cmdFailed "Expected 1 argument"],
        outcome := .returned, buffer := prior }
  else
    let params := msg.command_args.foldl (fun s a => s ++ " " ++ a) ""
    let doc : CommandDoc :=
      { command := msg.command_name, parameters := params, timestamp := ctx.now }
    { trace := .writeCommandBuffer doc ::
        (match msg.ack_id with
         | some _ => [.sendCommandAck .cmdSuccessWithAck "Forwarding command"]
         | none => []),
      outcome := .returned,
      buffer := some doc }

/-- One OTA artifact as delivered by the platform. -/
structure OtaUrlEntry where
  url : String
  file_name : String
deriving DecidableEq

structure C2dOta where
  version : String
  urls : List OtaUrlEntry
deriving DecidableEq

/-- Environment for one `on_ota` call: whether `urllib.request.urlretrieve`
succeeds for a given URL, the `extract_and_run_tar_gz` environment for a
given file name, and the process identity as in `CmdCtx`. -/
structure OtaCtx where
  downloadOk : String → Bool
  tarEnv : String → TarEnv
  executable : String
  file : String
  argv0 : String
  argvTail : List String

/-- `name.endswith(".tar.gz")`, decided on the character data. -/
def isTarGz (name : String) : Bool := List.isSuffixOf ".tar.gz".data name.data

/-- The `for url in msg.urls` loop of `on_ota`, carrying the
`extraction_success` flag (initially `False`): a download error breaks out
of the loop leaving the flag as it was; a `.tar.gz` file is extracted, the
flag is set to the result, and a `False` result breaks; any other file only
logs and continues, leaving the flag as it was. Returns the loop trace and
the final flag. -/
def otaLoop (ctx : OtaCtx) : List OtaUrlEntry → Bool → List Action × Bool
  | [], flag => ([], flag)
  | u :: rest, flag =>
    if ctx.downloadOk u.url then
      if isTarGz u.file_name then
        let ext := extract_and_run_tar_gz (ctx.tarEnv u.file_name) u.file_name
        if ext.2 then
          let t := otaLoop ctx rest true
          (.downloadOta u.url u.file_name true :: (ext.1 ++ t.1), t.2)
        else (.downloadOta u.url u.file_name true :: ext.1, false)
      else
        let t := otaLoop ctx rest flag
        (.downloadOta u.url u.file_name true :: t.1, t.2)
    else ([.downloadOta u.url u.file_name false], flag)

structure OtaResult where
  trace : List Action
  restarted : Bool
deriving DecidableEq

/-- `on_ota(msg)`: acknowledge `OTA_DOWNLOADING`, run the download loop,
and if the final `extraction_success` flag is `True` acknowledge
`OTA_DOWNLOAD_DONE` and call
`os.execv(sys.executable, [sys.executable, __file__] + [sys.argv[0]])`;
otherwise log and return. -/
def on_ota (ctx : OtaCtx) (msg : C2dOta) : OtaResult :=
  let t := otaLoop ctx msg.urls false
  if t.2 then
    { trace := .sendOtaAck .otaDownloading ::
        (t.1 ++ [.sendOtaAck .otaDownloadDone,
          .execv ctx.executable [ctx.executable, ctx.file, ctx.argv0]]),
      restarted := true }
  else
    { trace := .sendOtaAck .otaDownloading :: (t.1 ++ [.logOtaFailure]),
      restarted := false }

/-! ## The main session loop

The module-level `try`/`except` of the source. One `LoopEvent` abstracts one
iteration of `while True`: `ok` is a full iteration (connected, telemetry
read and sent, sleep); `connectFail` is an iteration whose reconnect attempt
leaves the client disconnected (`cleanup_command_buffer(); sys.exit(2)`);
`interrupted connected` is a `KeyboardInterrupt` surfacing during the
iteration (disconnect if connected, `cleanup_command_buffer()`,
`sys.exit(0)`); `telemetryFail` is `safe_read_json(DATA_BUFFER_PATH)`
raising, an exception neither `except` clause matches. A startup
configuration error (`DeviceConfigError`) is modelled by `configOk = false`
and happens before the loop is entered. -/

inductive LoopEvent where
  | ok : LoopEvent
  | connectFail : LoopEvent
  | interrupted (connected : Bool) : LoopEvent
  | telemetryFail : LoopEvent
deriving DecidableEq

/-- How the process ended: through `sys.exit(n)`, or by an exception no
handler catches. -/
inductive ExitKind where
  | code (n : Nat) : ExitKind
  | uncaughtException : ExitKind
deriving DecidableEq

/-- The OS-level exit status: `sys.exit(n)` yields `n`; the CPython
interpreter terminates with status 1 when an exception propagates out of
the program uncaught. -/
def osExitStatus : ExitKind → Nat
  | .code n => n
  | .uncaughtException => 1

structure MainResult where
  exit : Option ExitKind
  cleanedBuffer : Bool
  disconnectCalled : Bool
  enteredLoop : Bool
  telemetrySent : Nat
deriving DecidableEq

def mainLoop : List LoopEvent → Nat → MainResult
  | [], sent =>
    { exit := none, cleanedBuffer := false, disconnectCalled := false,
      enteredLoop := true, telemetrySent := sent }
  | e :: rest, sent =>
    match e with
    | .ok => mainLoop rest (sent + 1)
    | .connectFail =>
      { exit := some (.code 2), cleanedBuffer := true, disconnectCalled := false,
        enteredLoop := true, telemetrySent := sent }
    | .interrupted connected =>
      { exit := some (.code 0), cleanedBuffer := true,
        disconnectCalled := connected, enteredLoop := true,
        telemetrySent := sent }
    | .telemetryFail =>
      { exit := some .uncaughtException, cleanedBuffer := false,
        disconnectCalled := false, enteredLoop := true, telemetrySent := sent }

/-- The whole program run: a `DeviceConfigError` during startup cleans the
command buffer and exits with status 1 before the loop; otherwise the loop
runs over the given events (`exit = none` means the process is still
running when the event list is exhausted). -/
def runMain (configOk : Bool) (events : List LoopEvent) : MainResult :=
  if configOk then mainLoop events 0
  else
    { exit := some (.code 1), cleanedBuffer := true, disconnectCalled := false,
      enteredLoop := false, telemetrySent := 0 }

/-- A serialized number is followed by a non-digit (inside arrays and
objects the next character is a comma or a newline, at top level the end of
the input), so the maximal-munch digit scan stops exactly at its end. -/
def headNotDigit : List Char → Prop
  | [] => True
  | c :: _ => c.isDigit = false

/-- Side condition of the round-trip lemma on the input following a
serialized value: only numbers constrain it. -/
def numOk : Json → List Char → Prop
  | .num _, rest => headNotDigit rest
  | _, _ => True

/-! ## Derived observations and concrete fixtures -/

/-- The space-joined parameter string as the spec describes it: each
argument preceded by one space. The source builds it by a left fold; the
two agree (`foldl_append_eq_specJoin`). -/
def specJoin : List String → String
  | [] => ""
  | a :: rest => " " ++ a ++ specJoin rest

/-- The download attempts recorded in a trace, in order, as
(url, file name) pairs. -/
def downloadsOf (t : List Action) : List (String × String) :=
  t.filterMap fun a =>
    match a with
    | .downloadOta url fn _ => some (url, fn)
    | _ => none

/-- Actions the OTA download loop itself can emit (everything except the
acknowledgements, the failure log and `execv`, which only the wrapper
emits). -/
def isLoopAction : Action → Bool
  | .downloadOta _ _ _ => true
  | .runTar _ _ => true
  | .runInstallScript _ => true
  | .removeInstallScript => true
  | _ => false

/-- OTA fixture for claim C1: the first artifact downloads and extracts
cleanly, the second fails to download. -/
def c1OtaCtx : OtaCtx :=
  ⟨fun u => u == "u1", fun _ => ⟨true, false, .ok⟩, "python3", "app.py",
   "app.py", []⟩

def c1OtaMsg : C2dOta := ⟨"3.0", [⟨"u1", "a.tar.gz"⟩, ⟨"u2", "b.tar.gz"⟩]⟩

/-- Command fixture for claim C1: a well-formed `file-download` whose
download returns 200 but whose extraction fails. -/
def c1CmdCtx : CmdCtx :=
  ⟨some 200, ⟨false, false, .ok⟩, 0, "python3", "iotc-pnp-app.py",
   "iotc-pnp-app.py", []⟩

def c1CmdMsg : C2dCommand := ⟨"file-download", ["http://host/p.tar.gz"], some "ack1"⟩

/-- OTA fixture for claim C2: three artifacts, the second fails
extraction. -/
def c2Ctx : OtaCtx :=
  ⟨fun _ => true,
   fun fn => if fn = "b.tar.gz" then ⟨false, false, .ok⟩ else ⟨true, false, .ok⟩,
   "python3", "app.py", "app.py", []⟩

def c2Msg : C2dOta :=
  ⟨"1.1", [⟨"u1", "a.tar.gz"⟩, ⟨"u2", "b.tar.gz"⟩, ⟨"u3", "c.tar.gz"⟩]⟩

/-- OTA fixture for claim C3: a fully successful single-artifact update in
a process that was started with one extra command-line argument. -/
def c3Ctx : OtaCtx :=
  ⟨fun _ => true, fun _ => ⟨true, false, .ok⟩, "python3", "app.py", "app.py",
   ["--flag"]⟩

def c3Msg : C2dOta := ⟨"2.0", [⟨"u", "a.tar.gz"⟩]⟩

/-! # Theorems -/

/-! ## Helper lemmas about the update engine -/

theorem extract_snd (env : TarEnv) (f : String) :
    (extract_and_run_tar_gz env f).2 = tarSuccess env := by
  obtain ⟨t, p, r⟩ := env
  cases t <;> cases p <;> cases r <;> rfl

theorem extract_trace_forms (env : TarEnv) (f : String) :
    (extract_and_run_tar_gz env f).1 =
        [.runTar f true, .runInstallScript env.installRun.isOk,
         .removeInstallScript] ∨
    (extract_and_run_tar_gz env f).1 = [.runTar f true] ∨
    (extract_and_run_tar_gz env f).1 = [.runTar f false] := by
  obtain ⟨t, p, r⟩ := env
  cases t <;> cases p <;> simp [extract_and_run_tar_gz]

theorem extract_mem_loopAction (env : TarEnv) (f : String) :
    ∀ a ∈ (extract_and_run_tar_gz env f).1, isLoopAction a = true := by
  intro a ha
  rcases extract_trace_forms env f with hf | hf | hf <;> rw [hf] at ha <;>
    simp only [List.mem_cons, List.not_mem_nil, or_false] at ha
  · rcases ha with rfl | rfl | rfl <;> rfl
  · rcases ha with rfl; rfl
  · rcases ha with rfl; rfl

theorem downloadsOf_cons_download (u fn : String) (ok : Bool) (t : List Action) :
    downloadsOf (.downloadOta u fn ok :: t) = (u, fn) :: downloadsOf t := rfl

theorem downloadsOf_append (s t : List Action) :
    downloadsOf (s ++ t) = downloadsOf s ++ downloadsOf t :=
  List.filterMap_append ..

theorem downloadsOf_extract (env : TarEnv) (f : String) :
    downloadsOf (extract_and_run_tar_gz env f).1 = [] := by
  rcases extract_trace_forms env f with hf | hf | hf <;> rw [hf] <;> rfl

theorem otaLoop_actions (ctx : OtaCtx) :
    ∀ (urls : List OtaUrlEntry) (flag : Bool),
      ∀ a ∈ (otaLoop ctx urls flag).1, isLoopAction a = true := by
  intro urls
  induction urls with
  | nil => intro flag a ha; simp [otaLoop] at ha
  | cons u rest ih =>
    intro flag a ha
    cases hdl : ctx.downloadOk u.url with
    | false =>
      simp only [otaLoop, hdl, Bool.false_eq_true, if_false,
        List.mem_singleton] at ha
      subst ha; rfl
    | true =>
      cases ht : isTarGz u.file_name with
      | false =>
        simp only [otaLoop, hdl, ht, if_true, Bool.false_eq_true, if_false,
          List.mem_cons] at ha
        rcases ha with rfl | ha
        · rfl
        · exact ih flag a ha
      | true =>
        cases hx : (extract_and_run_tar_gz (ctx.tarEnv u.file_name) u.file_name).2 with
        | false =>
          simp only [otaLoop, hdl, ht, if_true, hx, if_false,
            Bool.false_eq_true, List.mem_cons] at ha
          rcases ha with rfl | ha
          · rfl
          · exact extract_mem_loopAction _ _ a ha
        | true =>
          simp only [otaLoop, hdl, ht, hx, if_true, List.mem_cons,
            List.mem_append] at ha
          rcases ha with rfl | ha | ha
          · rfl
          · exact extract_mem_loopAction _ _ a ha
          · exact ih true a ha

theorem loopActions_excl {t : List Action}
    (h : ∀ a ∈ t, isLoopAction a = true) :
    (∀ p a, Action.execv p a ∉ t) ∧ (∀ st, Action.sendOtaAck st ∉ t) ∧
      Action.logOtaFailure ∉ t ∧ (∀ st s, Action.sendCommandAck st s ∉ t) := by
  refine ⟨fun p a hm => ?_, fun st hm => ?_, fun hm => ?_, fun st s hm => ?_⟩ <;>
    simpa [isLoopAction] using h _ hm

/-- The core of claim C2: with every artifact before `bad` downloading and
(when an archive) extracting cleanly, and `bad` an archive whose extraction
fails, the loop ends with the flag `false` and the downloads attempted are
exactly the prefix up to and including `bad`, in order. -/
theorem otaLoop_good_prefix (ctx : OtaCtx) (bad : OtaUrlEntry)
    (post : List OtaUrlEntry) (hdl : ctx.downloadOk bad.url = true)
    (htar : isTarGz bad.file_name = true)
    (hfail : tarSuccess (ctx.tarEnv bad.file_name) = false) :
    ∀ (pre : List OtaUrlEntry) (flag : Bool),
      (∀ u ∈ pre, ctx.downloadOk u.url = true ∧
        (isTarGz u.file_name = true → tarSuccess (ctx.tarEnv u.file_name) = true)) →
      (otaLoop ctx (pre ++ bad :: post) flag).2 = false ∧
      downloadsOf (otaLoop ctx (pre ++ bad :: post) flag).1 =
        pre.map (fun u => (u.url, u.file_name)) ++ [(bad.url, bad.file_name)] := by
  intro pre
  induction pre with
  | nil =>
    intro flag _
    have hx : (extract_and_run_tar_gz (ctx.tarEnv bad.file_name) bad.file_name).2
        = false := by rw [extract_snd]; exact hfail
    constructor
    · simp only [List.nil_append, otaLoop, hdl, htar, hx, if_true, if_false,
        Bool.false_eq_true]
    · simp only [List.nil_append, otaLoop, hdl, htar, hx, if_true, if_false,
        Bool.false_eq_true, List.map_nil]
      rw [downloadsOf_cons_download, downloadsOf_extract]
  | cons u pre ih =>
    intro flag hall
    have hu := hall u (List.mem_cons_self u pre)
    have hrest : ∀ v ∈ pre, ctx.downloadOk v.url = true ∧
        (isTarGz v.file_name = true → tarSuccess (ctx.tarEnv v.file_name) = true) :=
      fun v hv => hall v (List.mem_cons_of_mem u hv)
    rw [List.cons_append]
    cases ht : isTarGz u.file_name with
    | true =>
      have hx : (extract_and_run_tar_gz (ctx.tarEnv u.file_name) u.file_name).2
          = true := by rw [extract_snd]; exact hu.2 ht
      have hrec := ih true hrest
      constructor
      · simp only [otaLoop, hu.1, ht, hx, if_true]
        exact hrec.1
      · simp only [otaLoop, hu.1, ht, hx, if_true]
        rw [downloadsOf_cons_download, downloadsOf_append, downloadsOf_extract,
          List.nil_append, hrec.2, List.map_cons, List.cons_append]
    | false =>
      have hrec := ih flag hrest
      constructor
      · simp only [otaLoop, hu.1, ht, if_true, Bool.false_eq_true, if_false]
        exact hrec.1
      · simp only [otaLoop, hu.1, ht, if_true, Bool.false_eq_true, if_false]
        rw [downloadsOf_cons_download, hrec.2, List.map_cons, List.cons_append]

/-! ## Helper lemmas about the session loop -/

theorem mainLoop_replicate_ok (l : List LoopEvent) :
    ∀ (n sent : Nat),
      mainLoop (List.replicate n .ok ++ l) sent = mainLoop l (sent + n) := by
  intro n
  induction n with
  | zero => intro sent; simp
  | succ k ih =>
    intro sent
    rw [List.replicate_succ, List.cons_append]
    have : mainLoop (LoopEvent.ok :: (List.replicate k .ok ++ l)) sent =
        mainLoop (List.replicate k .ok ++ l) (sent + 1) := rfl
    rw [this, ih (sent + 1)]
    congr 1
    omega

/-! ## Helper lemma about parameter joining -/

theorem foldl_append_eq_specJoin (args : List String) :
    ∀ s : String, args.foldl (fun s a => s ++ " " ++ a) s = s ++ specJoin args := by
  induction args with
  | nil => intro s; simp [specJoin]
  | cons a rest ih =>
    intro s
    show List.foldl (fun s a => s ++ " " ++ a) (s ++ " " ++ a) rest = _
    rw [ih (s ++ " " ++ a)]
    simp [specJoin, String.append_assoc]

/-! ## Claim theorems -/

/-! ## Round-trip of the JSON codec: whitespace -/

theorem skipWs_ws_cons (c : Char) (l : List Char) (h : isWsChar c = true) :
    skipWs (c :: l) = skipWs l := by simp [skipWs, h]

theorem skipWs_not_ws (c : Char) (l : List Char) (h : isWsChar c = false) :
    skipWs (c :: l) = c :: l := by simp [skipWs, h]

theorem skipWs_replicate_space (n : Nat) (l : List Char) :
    skipWs (List.replicate n ' ' ++ l) = skipWs l := by
  induction n with
  | zero => rfl
  | succ k ih =>
    rw [List.replicate_succ, List.cons_append, skipWs_ws_cons _ _ (by decide), ih]

theorem skipWs_indent (L : Nat) (l : List Char) :
    skipWs (indentChars L ++ l) = skipWs l := skipWs_replicate_space _ _

theorem skipWs_idem (l : List Char) : skipWs (skipWs l) = skipWs l := by
  induction l with
  | nil => rfl
  | cons c t ih =>
    cases h : isWsChar c
    · rw [skipWs_not_ws c t h, skipWs_not_ws c t h]
    · rw [skipWs_ws_cons c t h]; exact ih

theorem parseValue_skipWs (f : Nat) (cs : List Char) :
    parseValue f cs = parseValue f (skipWs cs) := by
  cases f with
  | zero => rfl
  | succ g => simp only [parseValue, skipWs_idem]

/-! ## Round-trip of the JSON codec: digits and numbers -/

theorem digitChar_isDigit (d : Nat) : (digitChar d).isDigit = true := by
  unfold digitChar
  split_ifs <;> decide

theorem digitChar_sub (d : Nat) (h : d < 10) : (digitChar d).toNat - 48 = d := by
  interval_cases d <;> decide

theorem serNatAux_append (n : Nat) :
    ∀ acc, serNatAux n acc = serNatAux n [] ++ acc := by
  induction n using Nat.strong_induction_on with
  | _ n ih =>
    intro acc
    by_cases h : n = 0
    · subst h; simp [serNatAux]
    · have hlt : n / 10 < n := Nat.div_lt_self (Nat.pos_of_ne_zero h) (by decide)
      rw [serNatAux, dif_neg h, ih (n / 10) hlt (digitChar (n % 10) :: acc)]
      conv_rhs => rw [serNatAux, dif_neg h, ih (n / 10) hlt [digitChar (n % 10)]]
      simp

theorem digitsVal_serNatAux (n : Nat) : digitsVal (serNatAux n []) = n := by
  induction n using Nat.strong_induction_on with
  | _ n ih =>
    by_cases h : n = 0
    · subst h; simp [serNatAux, digitsVal]
    · have hlt : n / 10 < n := Nat.div_lt_self (Nat.pos_of_ne_zero h) (by decide)
      rw [serNatAux, dif_neg h, serNatAux_append]
      have : digitsVal (serNatAux (n / 10) [] ++ [digitChar (n % 10)]) =
          10 * digitsVal (serNatAux (n / 10) []) + ((digitChar (n % 10)).toNat - 48) := by
        simp [digitsVal, List.foldl_append]
      rw [this, ih (n / 10) hlt, digitChar_sub (n % 10) (Nat.mod_lt n (by decide))]
      omega

theorem digitsVal_serNat (n : Nat) : digitsVal (serNat n) = n := by
  by_cases h : n = 0
  · subst h; rfl
  · rw [serNat, if_neg h, digitsVal_serNatAux]

theorem serNatAux_all_digits (n : Nat) :
    ∀ acc, (∀ c ∈ acc, c.isDigit = true) →
      ∀ c ∈ serNatAux n acc, c.isDigit = true := by
  induction n using Nat.strong_induction_on with
  | _ n ih =>
    intro acc hacc c hc
    by_cases h : n = 0
    · subst h; rw [serNatAux] at hc; exact hacc c hc
    · have hlt : n / 10 < n := Nat.div_lt_self (Nat.pos_of_ne_zero h) (by decide)
      rw [serNatAux, dif_neg h] at hc
      refine ih (n / 10) hlt _ ?_ c hc
      intro d hd
      rcases List.mem_cons.mp hd with rfl | hd
      · exact digitChar_isDigit _
      · exact hacc d hd

theorem serNat_all_digits (n : Nat) : ∀ c ∈ serNat n, c.isDigit = true := by
  intro c hc
  by_cases h : n = 0
  · subst h; rw [serNat] at hc; simp at hc; subst hc; decide
  · rw [serNat, if_neg h] at hc
    exact serNatAux_all_digits n [] (by intro d hd; simp at hd) c hc

theorem serNat_ne_nil (n : Nat) : serNat n ≠ [] := by
  by_cases h : n = 0
  · subst h; simp [serNat]
  · rw [serNat, if_neg h]
    have hlt : n / 10 < n := Nat.div_lt_self (Nat.pos_of_ne_zero h) (by decide)
    rw [serNatAux, dif_neg h, serNatAux_append]
    simp

theorem takeDigits_digits_prefix (ds : List Char) :
    ∀ rest, (∀ c ∈ ds, c.isDigit = true) → headNotDigit rest →
      takeDigits (ds ++ rest) = (ds, rest) := by
  induction ds with
  | nil =>
    intro rest _ hrest
    cases rest with
    | nil => rfl
    | cons r rs =>
      have : r.isDigit = false := hrest
      simp [takeDigits, this]
  | cons d ds ih =>
    intro rest hds hrest
    have hd : d.isDigit = true := hds d (List.mem_cons_self d ds)
    have := ih rest (fun c hc => hds c (List.mem_cons_of_mem d hc)) hrest
    simp [takeDigits, hd, this]

/-! ## Round-trip of the JSON codec: character classes -/

theorem isDigit_ne_of (c d : Char) (h : c.isDigit = true)
    (hd : d.isDigit = false) : c ≠ d := by
  intro e
  rw [e, hd] at h
  exact Bool.noConfusion h

theorem isDigit_not_ws (c : Char) (h : c.isDigit = true) : isWsChar c = false := by
  have w1 : c ≠ ' ' := isDigit_ne_of c ' ' h (by decide)
  have w2 : c ≠ '\t' := isDigit_ne_of c '\t' h (by decide)
  have w3 : c ≠ '\n' := isDigit_ne_of c '\n' h (by decide)
  have w4 : c ≠ '\r' := isDigit_ne_of c '\r' h (by decide)
  simp [isWsChar, w1, w2, w3, w4]

/-! ## Round-trip of the JSON codec: strings -/

theorem hexVal_hexDigitChar (d : Nat) (h : d < 16) :
    hexVal (hexDigitChar d) = some d := by
  interval_cases d <;> decide

theorem parseStrBody_ser (s : List Char) :
    ∀ rest, parseStrBody (serStrBody s ++ '"' :: rest) = some (s, rest) := by
  induction s with
  | nil =>
    intro rest
    show parseStrBody ('"' :: rest) = some ([], rest)
    rw [parseStrBody.eq_def]
    simp
  | cons c cs ih =>
    intro rest
    have hassoc : serStrBody (c :: cs) ++ '"' :: rest =
        escChar c ++ (serStrBody cs ++ '"' :: rest) := by
      simp [serStrBody]
    rw [hassoc]
    by_cases h1 : c = '"'
    · subst h1
      show parseStrBody ('\\' :: '"' :: (serStrBody cs ++ '"' :: rest)) = _
      rw [parseStrBody.eq_def]
      simp [unescape, ih]
    by_cases h2 : c = '\\'
    · subst h2
      show parseStrBody ('\\' :: '\\' :: (serStrBody cs ++ '"' :: rest)) = _
      rw [parseStrBody.eq_def]
      simp [unescape, ih]
    by_cases h3 : c = '\n'
    · subst h3
      show parseStrBody ('\\' :: 'n' :: (serStrBody cs ++ '"' :: rest)) = _
      rw [parseStrBody.eq_def]
      simp [unescape, ih]
    by_cases h4 : c = '\t'
    · subst h4
      show parseStrBody ('\\' :: 't' :: (serStrBody cs ++ '"' :: rest)) = _
      rw [parseStrBody.eq_def]
      simp [unescape, ih]
    by_cases h5 : c = '\r'
    · subst h5
      show parseStrBody ('\\' :: 'r' :: (serStrBody cs ++ '"' :: rest)) = _
      rw [parseStrBody.eq_def]
      simp [unescape, ih]
    by_cases h6 : c.toNat = 8
    · have hc : c = Char.ofNat 8 := by rw [← Char.ofNat_toNat c, h6]
      subst hc
      show parseStrBody ('\\' :: 'b' :: (serStrBody cs ++ '"' :: rest)) = _
      rw [parseStrBody.eq_def]
      simp [unescape, ih]
    by_cases h7 : c.toNat = 12
    · have hc : c = Char.ofNat 12 := by rw [← Char.ofNat_toNat c, h7]
      subst hc
      show parseStrBody ('\\' :: 'f' :: (serStrBody cs ++ '"' :: rest)) = _
      rw [parseStrBody.eq_def]
      simp [unescape, ih]
    by_cases h8 : c.toNat < 32
    · have hesc : escChar c = ['\\', 'u', '0', '0', hexDigitChar (c.toNat / 16),
          hexDigitChar (c.toNat % 16)] := by
        simp [escChar, h1, h2, h3, h4, h5, h6, h7, h8]
      rw [hesc]
      have hhi : hexVal (hexDigitChar (c.toNat / 16)) = some (c.toNat / 16) :=
        hexVal_hexDigitChar _ (by omega)
      have hlo : hexVal (hexDigitChar (c.toNat % 16)) = some (c.toNat % 16) :=
        hexVal_hexDigitChar _ (by omega)
      simp only [List.cons_append, List.nil_append]
      rw [parseStrBody.eq_def]
      have h0 : hexVal '0' = some 0 := rfl
      simp [h0, hhi, hlo, ih rest]
      rw [show c.toNat / 16 * 16 + c.toNat % 16 = c.toNat from by omega,
        Char.ofNat_toNat]
    · have hesc : escChar c = [c] := by
        simp [escChar, h1, h2, h3, h4, h5, h6, h7, h8]
      rw [hesc]
      simp only [List.cons_append, List.nil_append]
      rw [parseStrBody.eq_def]
      simp [h1, h2, ih]

/-! ## Round-trip of the JSON codec: the main induction -/

theorem serNat_head (n : Nat) : ∃ d t, serNat n = d :: t ∧ d.isDigit = true := by
  cases hn : serNat n with
  | nil => exact absurd hn (serNat_ne_nil n)
  | cons d t =>
    refine ⟨d, t, rfl, serNat_all_digits n d ?_⟩
    rw [hn]
    exact List.mem_cons_self d t

theorem parseValue_serNat (g m : Nat) (rest : List Char)
    (hrest : headNotDigit rest) :
    parseValue (g + 1) (serNat m ++ rest) = some (.num (Int.ofNat m), rest) := by
  obtain ⟨d, t, hd, hdig⟩ := serNat_head m
  have htake : takeDigits (serNat m ++ rest) = (serNat m, rest) :=
    takeDigits_digits_prefix _ _ (serNat_all_digits m) hrest
  have h1 : ¬(d = 'n') := isDigit_ne_of d 'n' hdig (by decide)
  have h2 : ¬(d = 't') := isDigit_ne_of d 't' hdig (by decide)
  have h3 : ¬(d = 'f') := isDigit_ne_of d 'f' hdig (by decide)
  have h4 : ¬(d = '"') := isDigit_ne_of d '"' hdig (by decide)
  have h5 : ¬(d = '-') := isDigit_ne_of d '-' hdig (by decide)
  have hnws : isWsChar d = false := isDigit_not_ws d hdig
  rw [hd, List.cons_append]
  simp only [parseValue, skipWs_not_ws d _ hnws, h1, h2, h3, h4, h5, hdig,
    if_false, if_true, reduceIte]
  rw [← List.cons_append, ← hd, htake, hd]
  simp only []
  rw [← hd, digitsVal_serNat]
  rfl

theorem parseValue_serStr (g : Nat) (s : List Char) (rest : List Char) :
    parseValue (g + 1) (serStr s ++ rest) = some (.str s, rest) := by
  show parseValue (g + 1) (('"' :: (serStrBody s ++ ['"'])) ++ rest) = _
  have : ('"' :: (serStrBody s ++ ['"'])) ++ rest =
      '"' :: (serStrBody s ++ '"' :: rest) := by simp
  rw [this]
  simp only [parseValue, skipWs_not_ws '"' _ (by decide), parseStrBody_ser s rest,
    reduceIte]
  rfl


theorem parseValue_serInt (g : Nat) (n : Int) (rest : List Char)
    (hrest : headNotDigit rest) :
    parseValue (g + 1) (serInt n ++ rest) = some (.num n, rest) := by
  cases n with
  | ofNat m => exact parseValue_serNat g m rest hrest
  | negSucc m =>
    show parseValue (g + 1) (('-' :: serNat (m + 1)) ++ rest) = _
    rw [List.cons_append]
    obtain ⟨d, t, hd, hdig⟩ := serNat_head (m + 1)
    have htake : takeDigits (serNat (m + 1) ++ rest) = (serNat (m + 1), rest) :=
      takeDigits_digits_prefix _ _ (serNat_all_digits (m + 1)) hrest
    have hval : Int.negSucc m = -(((m + 1 : Nat) : Int)) := by
      rw [Int.negSucc_eq]
      push_cast
      ring
    simp [parseValue, skipWs_not_ws '-' _ (by decide), htake]
    rw [hd]
    simp only []
    rw [← hd, digitsVal_serNat, hval]

theorem serJson_head (L : Nat) (j : Json) :
    ∃ c t, serJson L j = c :: t ∧ isWsChar c = false ∧ ¬(c = ']') := by
  cases j with
  | null => exact ⟨'n', ['u', 'l', 'l'], by simp [serJson], by decide, by decide⟩
  | bool b =>
    cases b with
    | true => exact ⟨'t', ['r', 'u', 'e'], by simp [serJson], by decide, by decide⟩
    | false =>
      exact ⟨'f', ['a', 'l', 's', 'e'], by simp [serJson], by decide, by decide⟩
  | num n =>
    cases n with
    | ofNat m =>
      obtain ⟨d, t, hd, hdig⟩ := serNat_head m
      exact ⟨d, t, by simp [serJson, serInt, hd], isDigit_not_ws d hdig,
        isDigit_ne_of d ']' hdig (by decide)⟩
    | negSucc m =>
      exact ⟨'-', serNat (m + 1), by simp [serJson, serInt], by decide, by decide⟩
  | str s =>
    exact ⟨'"', serStrBody s ++ ['"'], by simp [serJson, serStr], by decide,
      by decide⟩
  | arr xs =>
    cases xs with
    | nil => exact ⟨'[', [']'], by simp [serJson], by decide, by decide⟩
    | cons x xs =>
      exact ⟨'[', '\n' :: (indentChars (L + 1) ++ serJson (L + 1) x ++
        serArrTail (L + 1) xs ++ '\n' :: (indentChars L ++ [']'])),
        by simp [serJson], by decide, by decide⟩
  | obj ms =>
    cases ms with
    | nil => exact ⟨lbrace, [rbrace], by simp [serJson], by decide, by decide⟩
    | cons m ms =>
      obtain ⟨k, v⟩ := m
      exact ⟨lbrace, '\n' :: (indentChars (L + 1) ++ serStr k ++
        ':' :: ' ' :: serJson (L + 1) v ++
        serObjTail (L + 1) ms ++ '\n' :: (indentChars L ++ [rbrace])),
        by simp [serJson], by decide, by decide⟩


theorem sizeJ_pos (j : Json) : 1 ≤ sizeJ j := by
  cases j <;> simp [sizeJ]

theorem sizeT_pos (xs : List Json) : 1 ≤ sizeT xs := by
  cases xs with
  | nil => simp [sizeT]
  | cons x xs => simp [sizeT]; omega

theorem sizeM_pos (ms : List (List Char × Json)) : 1 ≤ sizeM ms := by
  cases ms with
  | nil => simp [sizeM]
  | cons m ms =>
    obtain ⟨k, v⟩ := m
    simp [sizeM]
    omega

theorem numOk_of_head (j : Json) {rest : List Char} (h : headNotDigit rest) :
    numOk j rest := by
  cases j <;> first | exact h | trivial

theorem headNotDigit_arrTail (M : Nat) (xs : List Json) (l : List Char) :
    headNotDigit (serArrTail M xs ++ '\n' :: l) := by
  cases xs with
  | nil => simp [serArrTail, headNotDigit]
  | cons x xs => simp [serArrTail, headNotDigit]

theorem headNotDigit_objTail (M : Nat) (ms : List (List Char × Json))
    (l : List Char) : headNotDigit (serObjTail M ms ++ '\n' :: l) := by
  cases ms with
  | nil => simp [serObjTail, headNotDigit]
  | cons m ms =>
    obtain ⟨k, v⟩ := m
    simp [serObjTail, headNotDigit]


theorem parse_ser_main : ∀ N : Nat,
    (∀ j, sizeJ j ≤ N → ∀ L f rest, sizeJ j ≤ f → numOk j rest →
      parseValue f (serJson L j ++ rest) = some (j, rest)) ∧
    (∀ xs, sizeT xs ≤ N → ∀ L f rest, sizeT xs ≤ f →
      parseElems f (serArrTail (L + 1) xs ++ '\n' :: (indentChars L ++ ']' :: rest)) =
        some (xs, rest)) ∧
    (∀ ms, sizeM ms ≤ N → ∀ L f rest, sizeM ms ≤ f →
      parseMembers f
        (serObjTail (L + 1) ms ++ '\n' :: (indentChars L ++ rbrace :: rest)) =
        some (ms, rest)) := by
  intro N
  induction N with
  | zero =>
    refine ⟨fun j hj => absurd hj (by have := sizeJ_pos j; omega),
            fun xs hxs => absurd hxs (by have := sizeT_pos xs; omega),
            fun ms hms => absurd hms (by have := sizeM_pos ms; omega)⟩
  | succ N ih =>
    refine ⟨?_, ?_, ?_⟩
    · intro j hN L f rest hf hok
      cases f with
      | zero => have := sizeJ_pos j; omega
      | succ g =>
        cases j with
        | null => simp [serJson, parseValue, skipWs, isWsChar]
        | bool b => cases b <;> simp [serJson, parseValue, skipWs, isWsChar]
        | num n =>
          rw [show serJson L (.num n) = serInt n by simp [serJson]]
          exact parseValue_serInt g n rest hok
        | str s =>
          rw [show serJson L (.str s) = serStr s by simp [serJson]]
          exact parseValue_serStr g s rest
        | arr xs =>
          cases xs with
          | nil => simp [serJson, parseValue, skipWs, isWsChar]
          | cons x xs =>
            have hxN : sizeJ x ≤ N := by
              have h1 := sizeT_pos xs
              simp [sizeJ, sizeT] at hN
              omega
            have hTN : sizeT xs ≤ N := by
              have h1 := sizeJ_pos x
              simp [sizeJ, sizeT] at hN
              omega
            have hxf : sizeJ x ≤ g := by
              have h1 := sizeT_pos xs
              simp [sizeJ, sizeT] at hf
              omega
            have hTf : sizeT xs ≤ g := by
              have h1 := sizeJ_pos x
              simp [sizeJ, sizeT] at hf
              omega
            have hser : serJson L (.arr (x :: xs)) ++ rest =
                '[' :: '\n' :: (indentChars (L + 1) ++ (serJson (L + 1) x ++
                  (serArrTail (L + 1) xs ++ '\n' ::
                    (indentChars L ++ ']' :: rest)))) := by
              simp [serJson, List.append_assoc]
            obtain ⟨c0, t0, hxser, hxws, hxne⟩ := serJson_head (L + 1) x
            have hskip : skipWs ('\n' :: (indentChars (L + 1) ++
                (serJson (L + 1) x ++ (serArrTail (L + 1) xs ++ '\n' ::
                  (indentChars L ++ ']' :: rest))))) =
                c0 :: (t0 ++ (serArrTail (L + 1) xs ++ '\n' ::
                  (indentChars L ++ ']' :: rest))) := by
              rw [skipWs_ws_cons _ _ (by decide), skipWs_indent, hxser,
                List.cons_append, skipWs_not_ws c0 _ hxws]
            have hpx : parseValue g (c0 :: (t0 ++ (serArrTail (L + 1) xs ++
                '\n' :: (indentChars L ++ ']' :: rest)))) =
                some (x, serArrTail (L + 1) xs ++ '\n' ::
                  (indentChars L ++ ']' :: rest)) := by
              rw [← List.cons_append, ← hxser]
              exact ih.1 x hxN (L + 1) g _ hxf
                (numOk_of_head x (headNotDigit_arrTail _ _ _))
            have hpe : parseElems g (serArrTail (L + 1) xs ++ '\n' ::
                (indentChars L ++ ']' :: rest)) = some (xs, rest) :=
              ih.2.1 xs hTN L g rest hTf
            rw [hser]
            simp [parseValue, skipWs_not_ws '[' _ (by decide), hskip, hxne,
              hpx, hpe]
        | obj ms =>
          cases ms with
          | nil => simp [serJson, parseValue, skipWs, isWsChar, lbrace, rbrace]
          | cons m ms =>
            obtain ⟨k, v⟩ := m
            have hvN : sizeJ v ≤ N := by
              have h1 := sizeM_pos ms
              simp [sizeJ, sizeM] at hN
              omega
            have hMN : sizeM ms ≤ N := by
              have h1 := sizeJ_pos v
              simp [sizeJ, sizeM] at hN
              omega
            have hvf : sizeJ v ≤ g := by
              have h1 := sizeM_pos ms
              simp [sizeJ, sizeM] at hf
              omega
            have hMf : sizeM ms ≤ g := by
              have h1 := sizeJ_pos v
              simp [sizeJ, sizeM] at hf
              omega
            have hser : serJson L (.obj ((k, v) :: ms)) ++ rest =
                lbrace :: '\n' :: (indentChars (L + 1) ++ (serStr k ++
                  (':' :: ' ' :: (serJson (L + 1) v ++ (serObjTail (L + 1) ms ++
                    '\n' :: (indentChars L ++ rbrace :: rest)))))) := by
              simp [serJson, serStr, List.append_assoc]
            have hskip : skipWs ('\n' :: (indentChars (L + 1) ++ (serStr k ++
                (':' :: ' ' :: (serJson (L + 1) v ++ (serObjTail (L + 1) ms ++
                  '\n' :: (indentChars L ++ rbrace :: rest))))))) =
                '"' :: (serStrBody k ++ ('"' :: (':' :: ' ' ::
                  (serJson (L + 1) v ++ (serObjTail (L + 1) ms ++ '\n' ::
                    (indentChars L ++ rbrace :: rest)))))) := by
              rw [skipWs_ws_cons _ _ (by decide), skipWs_indent]
              rw [show serStr k ++ (':' :: ' ' :: (serJson (L + 1) v ++
                  (serObjTail (L + 1) ms ++ '\n' ::
                    (indentChars L ++ rbrace :: rest)))) =
                '"' :: (serStrBody k ++ ('"' :: (':' :: ' ' ::
                  (serJson (L + 1) v ++ (serObjTail (L + 1) ms ++ '\n' ::
                    (indentChars L ++ rbrace :: rest)))))) by
                simp [serStr, List.append_assoc]]
              rw [skipWs_not_ws '"' _ (by decide)]
            have hkey : parseStrBody (serStrBody k ++ ('"' :: (':' :: ' ' ::
                (serJson (L + 1) v ++ (serObjTail (L + 1) ms ++ '\n' ::
                  (indentChars L ++ rbrace :: rest)))))) =
                some (k, ':' :: ' ' :: (serJson (L + 1) v ++
                  (serObjTail (L + 1) ms ++ '\n' ::
                    (indentChars L ++ rbrace :: rest)))) := parseStrBody_ser k _
            obtain ⟨cv, tv, hvser, hvws, hvne⟩ := serJson_head (L + 1) v
            have hpv : parseValue g (' ' :: (serJson (L + 1) v ++
                (serObjTail (L + 1) ms ++ '\n' ::
                  (indentChars L ++ rbrace :: rest)))) =
                some (v, serObjTail (L + 1) ms ++ '\n' ::
                  (indentChars L ++ rbrace :: rest)) := by
              rw [parseValue_skipWs, skipWs_ws_cons ' ' _ (by decide), hvser,
                List.cons_append, skipWs_not_ws cv _ hvws, ← List.cons_append,
                ← hvser]
              exact ih.1 v hvN (L + 1) g _ hvf
                (numOk_of_head v (headNotDigit_objTail _ _ _))
            have hpm : parseMembers g (serObjTail (L + 1) ms ++ '\n' ::
                (indentChars L ++ rbrace :: rest)) = some (ms, rest) :=
              ih.2.2 ms hMN L g rest hMf
            have hlb1 : ¬(lbrace = 'n') := by decide
            have hlb2 : ¬(lbrace = 't') := by decide
            have hlb3 : ¬(lbrace = 'f') := by decide
            have hlb4 : ¬(lbrace = '"') := by decide
            have hlb5 : ¬(lbrace = '-') := by decide
            have hlb6 : lbrace.isDigit = false := by decide
            have hlb7 : ¬(lbrace = '[') := by decide
            have hqrb : ¬('"' = rbrace) := by decide
            rw [hser]
            simp [parseValue, skipWs_not_ws lbrace _ (by decide), hskip, hkey,
              skipWs_not_ws ':' _ (by decide), hpv, hpm, hlb1, hlb2, hlb3,
              hlb4, hlb5, hlb6, hlb7, hqrb]
    · intro xs hN L f rest hf
      cases f with
      | zero => have := sizeT_pos xs; omega
      | succ g =>
        cases xs with
        | nil =>
          rw [show serArrTail (L + 1) ([] : List Json) = [] by simp [serArrTail],
            List.nil_append]
          have hskip : skipWs ('\n' :: (indentChars L ++ ']' :: rest)) =
              ']' :: rest := by
            rw [skipWs_ws_cons _ _ (by decide), skipWs_indent,
              skipWs_not_ws ']' _ (by decide)]
          simp [parseElems, hskip]
        | cons x xs =>
          have hxN : sizeJ x ≤ N := by
            have h1 := sizeT_pos xs
            simp [sizeT] at hN
            omega
          have hTN : sizeT xs ≤ N := by
            have h1 := sizeJ_pos x
            simp [sizeT] at hN
            omega
          have hxf : sizeJ x ≤ g := by
            have h1 := sizeT_pos xs
            simp [sizeT] at hf
            omega
          have hTf : sizeT xs ≤ g := by
            have h1 := sizeJ_pos x
            simp [sizeT] at hf
            omega
          rw [show serArrTail (L + 1) (x :: xs) = ',' :: '\n' ::
              (indentChars (L + 1) ++ serJson (L + 1) x ++
                serArrTail (L + 1) xs) by simp [serArrTail]]
          rw [show (',' :: '\n' :: (indentChars (L + 1) ++ serJson (L + 1) x ++
              serArrTail (L + 1) xs)) ++ '\n' :: (indentChars L ++ ']' :: rest) =
              ',' :: '\n' :: (indentChars (L + 1) ++ (serJson (L + 1) x ++
                (serArrTail (L + 1) xs ++ '\n' ::
                  (indentChars L ++ ']' :: rest)))) by
            simp [List.append_assoc]]
          obtain ⟨c0, t0, hxser, hxws, hxne⟩ := serJson_head (L + 1) x
          have hpx : parseValue g ('\n' :: (indentChars (L + 1) ++
              (serJson (L + 1) x ++ (serArrTail (L + 1) xs ++ '\n' ::
                (indentChars L ++ ']' :: rest))))) =
              some (x, serArrTail (L + 1) xs ++ '\n' ::
                (indentChars L ++ ']' :: rest)) := by
            rw [parseValue_skipWs, skipWs_ws_cons _ _ (by decide), skipWs_indent,
              hxser, List.cons_append, skipWs_not_ws c0 _ hxws,
              ← List.cons_append, ← hxser]
            exact ih.1 x hxN (L + 1) g _ hxf
              (numOk_of_head x (headNotDigit_arrTail _ _ _))
          have hpe : parseElems g (serArrTail (L + 1) xs ++ '\n' ::
              (indentChars L ++ ']' :: rest)) = some (xs, rest) :=
            ih.2.1 xs hTN L g rest hTf
          simp [parseElems, skipWs_not_ws ',' _ (by decide), hpx, hpe]
    · intro ms hN L f rest hf
      cases f with
      | zero => have := sizeM_pos ms; omega
      | succ g =>
        cases ms with
        | nil =>
          rw [show serObjTail (L + 1) ([] : List (List Char × Json)) = [] by
            simp [serObjTail], List.nil_append]
          have hskip : skipWs ('\n' :: (indentChars L ++ rbrace :: rest)) =
              rbrace :: rest := by
            rw [skipWs_ws_cons _ _ (by decide), skipWs_indent,
              skipWs_not_ws rbrace _ (by decide)]
          simp [parseMembers, hskip]
        | cons m ms =>
          obtain ⟨k, v⟩ := m
          have hvN : sizeJ v ≤ N := by
            have h1 := sizeM_pos ms
            simp [sizeM] at hN
            omega
          have hMN : sizeM ms ≤ N := by
            have h1 := sizeJ_pos v
            simp [sizeM] at hN
            omega
          have hvf : sizeJ v ≤ g := by
            have h1 := sizeM_pos ms
            simp [sizeM] at hf
            omega
          have hMf : sizeM ms ≤ g := by
            have h1 := sizeJ_pos v
            simp [sizeM] at hf
            omega
          rw [show serObjTail (L + 1) ((k, v) :: ms) = ',' :: '\n' ::
              (indentChars (L + 1) ++ serStr k ++ ':' :: ' ' ::
                serJson (L + 1) v ++ serObjTail (L + 1) ms) by
            simp [serObjTail]]
          rw [show (',' :: '\n' :: (indentChars (L + 1) ++ serStr k ++
              ':' :: ' ' :: serJson (L + 1) v ++ serObjTail (L + 1) ms)) ++
              '\n' :: (indentChars L ++ rbrace :: rest) =
              ',' :: '\n' :: (indentChars (L + 1) ++ (serStr k ++
                (':' :: ' ' :: (serJson (L + 1) v ++ (serObjTail (L + 1) ms ++
                  '\n' :: (indentChars L ++ rbrace :: rest)))))) by
            simp [List.append_assoc]]
          have hskip : skipWs ('\n' :: (indentChars (L + 1) ++ (serStr k ++
              (':' :: ' ' :: (serJson (L + 1) v ++ (serObjTail (L + 1) ms ++
                '\n' :: (indentChars L ++ rbrace :: rest))))))) =
              '"' :: (serStrBody k ++ ('"' :: (':' :: ' ' ::
                (serJson (L + 1) v ++ (serObjTail (L + 1) ms ++ '\n' ::
                  (indentChars L ++ rbrace :: rest)))))) := by
            rw [skipWs_ws_cons _ _ (by decide), skipWs_indent]
            rw [show serStr k ++ (':' :: ' ' :: (serJson (L + 1) v ++
                (serObjTail (L + 1) ms ++ '\n' ::
                  (indentChars L ++ rbrace :: rest)))) =
              '"' :: (serStrBody k ++ ('"' :: (':' :: ' ' ::
                (serJson (L + 1) v ++ (serObjTail (L + 1) ms ++ '\n' ::
                  (indentChars L ++ rbrace :: rest)))))) by
              simp [serStr, List.append_assoc]]
            rw [skipWs_not_ws '"' _ (by decide)]
          have hkey : parseStrBody (serStrBody k ++ ('"' :: (':' :: ' ' ::
              (serJson (L + 1) v ++ (serObjTail (L + 1) ms ++ '\n' ::
                (indentChars L ++ rbrace :: rest)))))) =
              some (k, ':' :: ' ' :: (serJson (L + 1) v ++
                (serObjTail (L + 1) ms ++ '\n' ::
                  (indentChars L ++ rbrace :: rest)))) := parseStrBody_ser k _
          obtain ⟨cv, tv, hvser, hvws, hvne⟩ := serJson_head (L + 1) v
          have hpv : parseValue g (' ' :: (serJson (L + 1) v ++
              (serObjTail (L + 1) ms ++ '\n' ::
                (indentChars L ++ rbrace :: rest)))) =
              some (v, serObjTail (L + 1) ms ++ '\n' ::
                (indentChars L ++ rbrace :: rest)) := by
            rw [parseValue_skipWs, skipWs_ws_cons ' ' _ (by decide), hvser,
              List.cons_append, skipWs_not_ws cv _ hvws, ← List.cons_append,
              ← hvser]
            exact ih.1 v hvN (L + 1) g _ hvf
              (numOk_of_head v (headNotDigit_objTail _ _ _))
          have hpm : parseMembers g (serObjTail (L + 1) ms ++ '\n' ::
              (indentChars L ++ rbrace :: rest)) = some (ms, rest) :=
            ih.2.2 ms hMN L g rest hMf
          have hcrb : ¬(',' = rbrace) := by decide
          have hqrb : ¬('"' = rbrace) := by decide
          simp [parseMembers, skipWs_not_ws ',' _ (by decide), hskip, hkey,
            skipWs_not_ws ':' _ (by decide), hpv, hpm, hcrb, hqrb]


theorem size_le_serLen : ∀ N : Nat,
    (∀ j, sizeJ j ≤ N → ∀ L, sizeJ j ≤ (serJson L j).length) ∧
    (∀ xs, sizeT xs ≤ N → ∀ L, sizeT xs ≤ (serArrTail L xs).length + 1) ∧
    (∀ ms, sizeM ms ≤ N → ∀ L, sizeM ms ≤ (serObjTail L ms).length + 1) := by
  intro N
  induction N with
  | zero =>
    refine ⟨fun j hj => absurd hj (by have := sizeJ_pos j; omega),
            fun xs hxs => absurd hxs (by have := sizeT_pos xs; omega),
            fun ms hms => absurd hms (by have := sizeM_pos ms; omega)⟩
  | succ N ih =>
    refine ⟨?_, ?_, ?_⟩
    · intro j hN L
      cases j with
      | null => simp [serJson, sizeJ]
      | bool b => cases b <;> simp [serJson, sizeJ]
      | num n =>
        cases n with
        | ofNat m =>
          have h1 : 0 < (serNat m).length := List.length_pos.mpr (serNat_ne_nil m)
          simp only [serJson, serInt, sizeJ]
          omega
        | negSucc m =>
          simp [serJson, serInt, sizeJ]
      | str s => simp [serJson, serStr, sizeJ]
      | arr xs =>
        cases xs with
        | nil => simp [serJson, sizeJ, sizeT]
        | cons x xs =>
          have hxN : sizeJ x ≤ N := by
            have h1 := sizeT_pos xs
            simp [sizeJ, sizeT] at hN
            omega
          have hTN : sizeT xs ≤ N := by
            have h1 := sizeJ_pos x
            simp [sizeJ, sizeT] at hN
            omega
          have h1 := ih.1 x hxN (L + 1)
          have h2 := ih.2.1 xs hTN (L + 1)
          simp only [serJson, sizeJ, sizeT, List.length_cons,
            List.length_append, indentChars, List.length_replicate,
            List.length_singleton]
          omega
      | obj ms =>
        cases ms with
        | nil => simp [serJson, sizeJ, sizeM]
        | cons m ms =>
          obtain ⟨k, v⟩ := m
          have hvN : sizeJ v ≤ N := by
            have h1 := sizeM_pos ms
            simp [sizeJ, sizeM] at hN
            omega
          have hMN : sizeM ms ≤ N := by
            have h1 := sizeJ_pos v
            simp [sizeJ, sizeM] at hN
            omega
          have h1 := ih.1 v hvN (L + 1)
          have h2 := ih.2.2 ms hMN (L + 1)
          simp only [serJson, sizeJ, sizeM, List.length_cons,
            List.length_append, indentChars, List.length_replicate,
            List.length_singleton]
          omega
    · intro xs hN L
      cases xs with
      | nil => simp [serArrTail, sizeT]
      | cons x xs =>
        have hxN : sizeJ x ≤ N := by
          have h1 := sizeT_pos xs
          simp [sizeT] at hN
          omega
        have hTN : sizeT xs ≤ N := by
          have h1 := sizeJ_pos x
          simp [sizeT] at hN
          omega
        have h1 := ih.1 x hxN L
        have h2 := ih.2.1 xs hTN L
        simp only [serArrTail, sizeT, List.length_cons, List.length_append,
          indentChars, List.length_replicate]
        omega
    · intro ms hN L
      cases ms with
      | nil => simp [serObjTail, sizeM]
      | cons m ms =>
        obtain ⟨k, v⟩ := m
        have hvN : sizeJ v ≤ N := by
          have h1 := sizeM_pos ms
          simp [sizeM] at hN
          omega
        have hMN : sizeM ms ≤ N := by
          have h1 := sizeJ_pos v
          simp [sizeM] at hN
          omega
        have h1 := ih.1 v hvN L
        have h2 := ih.2.2 ms hMN L
        simp only [serObjTail, sizeM, List.length_cons, List.length_append,
          indentChars, List.length_replicate]
        omega

theorem json_load_dump (data : Json) : json_load (json_dump data) = some data := by
  have hlen : sizeJ data ≤ (serJson 0 data).length :=
    (size_le_serLen (sizeJ data)).1 data le_rfl 0
  have h := (parse_ser_main (sizeJ data)).1 data le_rfl 0
    ((json_dump data).length + 1) [] (by simp only [json_dump]; omega)
    (numOk_of_head data trivial)
  rw [List.append_nil] at h
  simp only [json_load, json_dump] at h ⊢
  rw [h]
  simp [skipWs]

/-- Claim C7: for every JSON document `data` and path, reading the file back
after `safe_write_json path data` returns a document equal to `data`: the
write serializes with `json.dump(data, f, indent=4)` fully replacing the
previous contents, and the read parses it back with `json.load`. -/
theorem C7_store_roundtrip :
    ∀ (fs : FileSystem) (path : String) (data : Json),
      safe_read_json (safe_write_json fs path data) path = some data := by
  intro fs path data
  simp [safe_read_json, safe_write_json, json_load_dump]

/-- Claim C1 (code bug): the claim states that an update attempt triggers a
self-restart only if every artifact downloaded and every archive extracted
and installed without error, and that on any failure the agent remains
running. The code violates this: in the `file-download` path of
`on_command`, `os.execv` is reached unconditionally once the download
request returns, even though the computed `extraction_success` is `False`
(the variable is assigned and never read); and in `on_ota`, a download
failure on a later artifact breaks the loop with the flag still `True` from
an earlier artifact, so the process restarts despite the failed download.
This theorem evaluates both failing inputs. -/
theorem C1_restart_despite_failure :
    (Action.runTar "package.tar.gz" false ∈ (on_command c1CmdCtx none c1CmdMsg).trace ∧
      (on_command c1CmdCtx none c1CmdMsg).outcome =
        .restarted ["python3", "iotc-pnp-app.py", "iotc-pnp-app.py"]) ∧
    (Action.downloadOta "u2" "b.tar.gz" false ∈ (on_ota c1OtaCtx c1OtaMsg).trace ∧
      (on_ota c1OtaCtx c1OtaMsg).restarted = true) := by
  decide

/-- Claim C2: when artifact `bad` of an OTA set is reached and its
extraction fails, the engine has processed the artifacts strictly in order
(the recorded downloads are exactly the prefix up to and including `bad`),
reports failure (the failure log is emitted, no `OTA_DOWNLOAD_DONE`
acknowledgement is sent), never attempts any artifact after the failing
one, and never triggers a restart. -/
theorem C2_extraction_failure_aborts (ctx : OtaCtx) (version : String)
    (pre post : List OtaUrlEntry) (bad : OtaUrlEntry)
    (hpre : ∀ u ∈ pre, ctx.downloadOk u.url = true ∧
      (isTarGz u.file_name = true → tarSuccess (ctx.tarEnv u.file_name) = true))
    (hdl : ctx.downloadOk bad.url = true)
    (htar : isTarGz bad.file_name = true)
    (hfail : tarSuccess (ctx.tarEnv bad.file_name) = false) :
    (on_ota ctx ⟨version, pre ++ bad :: post⟩).restarted = false ∧
    (∀ p a, Action.execv p a ∉ (on_ota ctx ⟨version, pre ++ bad :: post⟩).trace) ∧
    Action.sendOtaAck .otaDownloadDone ∉
      (on_ota ctx ⟨version, pre ++ bad :: post⟩).trace ∧
    Action.logOtaFailure ∈ (on_ota ctx ⟨version, pre ++ bad :: post⟩).trace ∧
    downloadsOf (on_ota ctx ⟨version, pre ++ bad :: post⟩).trace =
      pre.map (fun u => (u.url, u.file_name)) ++ [(bad.url, bad.file_name)] := by
  have hloop := otaLoop_good_prefix ctx bad post hdl htar hfail pre false hpre
  have hacts := otaLoop_actions ctx (pre ++ bad :: post) false
  have hexcl := loopActions_excl hacts
  simp only [on_ota, hloop.1, Bool.false_eq_true, if_false]
  refine ⟨trivial, ?_, ?_, ?_, ?_⟩
  · intro p a hm
    simp only [List.mem_cons, List.mem_append, List.mem_singleton] at hm
    rcases hm with h | h | h
    · exact absurd h (by simp)
    · exact hexcl.1 p a h
    · exact absurd h (by simp)
  · intro hm
    simp only [List.mem_cons, List.mem_append, List.mem_singleton] at hm
    rcases hm with h | h | h
    · exact absurd h (by simp)
    · exact hexcl.2.1 _ h
    · exact absurd h (by simp)
  · simp
  · show downloadsOf (.sendOtaAck .otaDownloading ::
        ((otaLoop ctx (pre ++ bad :: post) false).1 ++ [.logOtaFailure])) = _
    have h1 : downloadsOf (.sendOtaAck .otaDownloading ::
        ((otaLoop ctx (pre ++ bad :: post) false).1 ++ [.logOtaFailure])) =
        downloadsOf ((otaLoop ctx (pre ++ bad :: post) false).1 ++
          [.logOtaFailure]) := rfl
    rw [h1, downloadsOf_append, hloop.2]
    simp [downloadsOf]

/-- Witness for C2 at the concrete artifact set of the spec example:
three artifacts, the second fails extraction. -/
theorem C2_extraction_failure_aborts_witness :
    (on_ota c2Ctx c2Msg).restarted = false ∧
    (∀ p a, Action.execv p a ∉ (on_ota c2Ctx c2Msg).trace) ∧
    Action.sendOtaAck .otaDownloadDone ∉ (on_ota c2Ctx c2Msg).trace ∧
    Action.logOtaFailure ∈ (on_ota c2Ctx c2Msg).trace ∧
    downloadsOf (on_ota c2Ctx c2Msg).trace =
      [("u1", "a.tar.gz"), ("u2", "b.tar.gz")] :=
  C2_extraction_failure_aborts c2Ctx "1.1" [⟨"u1", "a.tar.gz"⟩]
    [⟨"u3", "c.tar.gz"⟩] ⟨"u2", "b.tar.gz"⟩ (by decide) (by decide) (by decide)
    (by decide)

/-- Claim C3, counterexample: a fully successful single-archive OTA update
in a process whose original argument vector was
`["app.py", "--flag"]` restarts with
`execv("python3", ["python3", "app.py", "app.py"])` — the original argument
vector (which would give `["python3", "app.py", "--flag"]`) is not used:
arguments after `argv[0]` are dropped and `argv[0]` is duplicated. -/
theorem C3_counterexample_argv_not_preserved :
    (on_ota c3Ctx c3Msg).restarted = true ∧
    Action.execv "python3" ["python3", "app.py", "app.py"] ∈
      (on_ota c3Ctx c3Msg).trace ∧
    Action.execv "python3" ("python3" :: c3Ctx.argv0 :: c3Ctx.argvTail) ∉
      (on_ota c3Ctx c3Msg).trace := by
  decide

/-- Claim C3, amended: on any restart (either path), the process replaces
itself via `execv` of the interpreter with the argument vector
`[sys.executable, __file__, sys.argv[0]]` — the original entry point plus
the original `argv[0]` as a single extra argument; arguments beyond
`argv[0]` are not preserved. -/
theorem C3_amended_execv_vector :
    (∀ (ctx : OtaCtx) (msg : C2dOta) (p : String) (a : List String),
      Action.execv p a ∈ (on_ota ctx msg).trace →
      p = ctx.executable ∧ a = [ctx.executable, ctx.file, ctx.argv0]) ∧
    (∀ (ctx : CmdCtx) (prior : Option CommandDoc) (msg : C2dCommand)
        (p : String) (a : List String),
      Action.execv p a ∈ (on_command ctx prior msg).trace →
      p = ctx.executable ∧ a = [ctx.executable, ctx.file, ctx.argv0]) := by
  constructor
  · intro ctx msg p a hm
    have hexcl := loopActions_excl (otaLoop_actions ctx msg.urls false)
    cases hflag : (otaLoop ctx msg.urls false).2 with
    | true =>
      simp only [on_ota, hflag, if_true, List.mem_cons, List.mem_append,
        List.mem_singleton, List.not_mem_nil, or_false, false_or,
        Action.execv.injEq, reduceCtorEq] at hm
      rcases hm with h | h
      · exact absurd h (hexcl.1 p a)
      · exact h
    | false =>
      simp only [on_ota, hflag, Bool.false_eq_true, if_false, List.mem_cons,
        List.mem_append, List.mem_singleton, List.not_mem_nil, or_false,
        false_or, reduceCtorEq] at hm
      exact absurd hm (hexcl.1 p a)
  · intro ctx prior msg p a hm
    by_cases hn : msg.command_name = "file-download"
    · by_cases hl : msg.command_args.length = 1
      · cases hs : ctx.httpStatus with
        | none =>
          simp only [on_command, hn, hl, hs, if_true] at hm
          exact absurd hm (by simp)
        | some code =>
          have hext := extract_mem_loopAction ctx.tar "package.tar.gz"
          by_cases hc : code = 200 <;>
            simp only [on_command, hn, hl, hs, hc, if_true, if_false,
              Bool.false_eq_true, List.append_assoc, List.cons_append,
              List.nil_append, List.mem_cons, List.mem_append,
              List.mem_singleton, List.not_mem_nil, or_false, false_or,
              Action.execv.injEq, reduceCtorEq] at hm <;>
            (rcases hm with h | h
             · have := hext _ h
               simp [isLoopAction] at this
             · exact h)
      · simp only [on_command, hn, hl, if_true, Bool.false_eq_true, if_false] at hm
        exact absurd hm (by simp)
    · cases hid : msg.ack_id <;> simp [on_command, hn, hid] at hm

/-- Witness for the amended C3, applying it to the concrete successful
update of the counterexample. -/
theorem C3_amended_execv_vector_witness :
    "python3" = c3Ctx.executable ∧
    ["python3", "app.py", "app.py"] = [c3Ctx.executable, c3Ctx.file, c3Ctx.argv0] :=
  C3_amended_execv_vector.1 c3Ctx c3Msg "python3" ["python3", "app.py", "app.py"]
    (by decide)

/-- Claim C4: after a successful extraction, if `install.sh` is present it
is executed and then deleted regardless of the execution outcome, and the
call succeeds exactly when the script ran cleanly; if `install.sh` is
absent, the call succeeds directly with no script executed. -/
theorem C4_install_script_discipline (env : TarEnv) (f : String)
    (htar : env.tarOk = true) :
    (env.installShPresent = true →
      (extract_and_run_tar_gz env f).1 =
        [.runTar f true, .runInstallScript env.installRun.isOk,
         .removeInstallScript] ∧
      ((extract_and_run_tar_gz env f).2 = true ↔ env.installRun = .ok)) ∧
    (env.installShPresent = false →
      (extract_and_run_tar_gz env f).1 = [.runTar f true] ∧
      (extract_and_run_tar_gz env f).2 = true) := by
  constructor
  · intro hp
    constructor
    · simp [extract_and_run_tar_gz, htar, hp]
    · simp only [extract_and_run_tar_gz, htar, hp, if_true]
      cases env.installRun <;> simp [InstallOutcome.isOk]
  · intro hp
    simp [extract_and_run_tar_gz, htar, hp]

/-- Witness for C4: a present `install.sh` that exits non-zero is executed,
deleted, and the call fails. -/
theorem C4_install_script_discipline_witness :
    ((true : Bool) = true →
      (extract_and_run_tar_gz ⟨true, true, .calledProcessError⟩ "pkg.tar.gz").1 =
        [.runTar "pkg.tar.gz" true, .runInstallScript false,
         .removeInstallScript] ∧
      ((extract_and_run_tar_gz ⟨true, true, .calledProcessError⟩ "pkg.tar.gz").2 = true ↔
        (InstallOutcome.calledProcessError = .ok))) ∧
    ((true : Bool) = false →
      (extract_and_run_tar_gz ⟨true, true, .calledProcessError⟩ "pkg.tar.gz").1 =
        [.runTar "pkg.tar.gz" true] ∧
      (extract_and_run_tar_gz ⟨true, true, .calledProcessError⟩ "pkg.tar.gz").2 = true) :=
  C4_install_script_discipline ⟨true, true, .calledProcessError⟩ "pkg.tar.gz" rfl

/-- Claim C5: a non-update command is written to the command buffer as
exactly the document (command name, space-joined arguments with a leading
space before each, current epoch second), fully replacing any prior
document; an acknowledgement is sent exactly when an ack token was
supplied, and it is always success-with-ack; the callback returns without
restarting. -/
theorem C5_forward_command (ctx : CmdCtx) (prior : Option CommandDoc)
    (msg : C2dCommand) (hn : msg.command_name ≠ "file-download") :
    (on_command ctx prior msg).buffer =
      some ⟨msg.command_name, specJoin msg.command_args, ctx.now⟩ ∧
    (∀ d, Action.writeCommandBuffer d ∈ (on_command ctx prior msg).trace →
      d = ⟨msg.command_name, specJoin msg.command_args, ctx.now⟩) ∧
    ((∃ s, Action.sendCommandAck .cmdSuccessWithAck s ∈
        (on_command ctx prior msg).trace) ↔ msg.ack_id ≠ none) ∧
    (∀ st s, Action.sendCommandAck st s ∈ (on_command ctx prior msg).trace →
      st = .cmdSuccessWithAck) ∧
    (on_command ctx prior msg).outcome = .returned := by
  have hj : msg.command_args.foldl (fun s a => s ++ " " ++ a) "" =
      specJoin msg.command_args := by
    rw [foldl_append_eq_specJoin]
    simp
  refine ⟨?_, ?_, ?_, ?_, ?_⟩
  · simp [on_command, hn, hj]
  · intro d hd
    cases hid : msg.ack_id <;> simp [on_command, hn, hid, hj] at hd <;>
      simp [hd]
  · cases hid : msg.ack_id <;> simp [on_command, hn, hid]
  · intro st s hm
    cases hid : msg.ack_id <;> simp [on_command, hn, hid] at hm
    simp [hm]
  · simp [on_command, hn]

/-- Witness for C5 at the spec example `{name: "reboot", args: ["now"]}`
with an ack token. -/
theorem C5_forward_command_witness :
    (on_command ⟨none, ⟨true, false, .ok⟩, 1700000000, "python3", "app.py",
        "app.py", []⟩ none ⟨"reboot", ["now"], some "ack-1"⟩).buffer =
      some ⟨"reboot", " now", 1700000000⟩ ∧
    (∀ d, Action.writeCommandBuffer d ∈
        (on_command ⟨none, ⟨true, false, .ok⟩, 1700000000, "python3", "app.py",
          "app.py", []⟩ none ⟨"reboot", ["now"], some "ack-1"⟩).trace →
      d = ⟨"reboot", " now", 1700000000⟩) ∧
    ((∃ s, Action.sendCommandAck .cmdSuccessWithAck s ∈
        (on_command ⟨none, ⟨true, false, .ok⟩, 1700000000, "python3", "app.py",
          "app.py", []⟩ none ⟨"reboot", ["now"], some "ack-1"⟩).trace) ↔
      (some "ack-1" : Option String) ≠ none) ∧
    (∀ st s, Action.sendCommandAck st s ∈
        (on_command ⟨none, ⟨true, false, .ok⟩, 1700000000, "python3", "app.py",
          "app.py", []⟩ none ⟨"reboot", ["now"], some "ack-1"⟩).trace →
      st = .cmdSuccessWithAck) ∧
    (on_command ⟨none, ⟨true, false, .ok⟩, 1700000000, "python3", "app.py",
        "app.py", []⟩ none ⟨"reboot", ["now"], some "ack-1"⟩).outcome =
      .returned :=
  C5_forward_command _ none ⟨"reboot", ["now"], some "ack-1"⟩ (by decide)

/-- Claim C6: a `file-download` command whose argument list does not have
exactly one element is answered by exactly one failure acknowledgement with
a descriptive reason and nothing else: no network request, no file or
buffer write, no extraction, no restart. -/
theorem C6_file_download_arity_violation (ctx : CmdCtx)
    (prior : Option CommandDoc) (msg : C2dCommand)
    (hn : msg.command_name = "file-download")
    (hl : msg.command_args.length ≠ 1) :
    (on_command ctx prior msg).trace =
      [.sendCommandAck .cmdFailed "Expected 1 argument"] ∧
    (on_command ctx prior msg).buffer = prior ∧
    (on_command ctx prior msg).outcome = .returned := by
  simp [on_command, hn, hl]

/-- Witness for C6 at the spec example: a `file-download` with 2
arguments. -/
theorem C6_file_download_arity_violation_witness :
    (on_command c1CmdCtx none ⟨"file-download", ["u1", "u2"], some "a"⟩).trace =
      [.sendCommandAck .cmdFailed "Expected 1 argument"] ∧
    (on_command c1CmdCtx none ⟨"file-download", ["u1", "u2"], some "a"⟩).buffer =
      none ∧
    (on_command c1CmdCtx none ⟨"file-download", ["u1", "u2"], some "a"⟩).outcome =
      .returned :=
  C6_file_download_arity_violation c1CmdCtx none
    ⟨"file-download", ["u1", "u2"], some "a"⟩ (by decide) (by decide)

/-- Claim C8: on every exit path of the Shared JSON Store operations —
open failure, body (parse/dump) failure which skips the explicit unlock,
and normal completion — the flock is no longer held when the operation
ends, because the `with` block closes the descriptor and closing releases
the lock. -/
theorem C8_lock_released_on_all_paths :
    ∀ openOk bodyOk : Bool,
      runLockEvents false (safe_read_json_lockEvents openOk bodyOk) = false ∧
      runLockEvents false (safe_write_json_lockEvents openOk bodyOk) = false := by
  decide

/-- Claim C9: exit status 0 on operator interrupt (after disconnecting when
connected and cleaning the command buffer), status 1 on a startup
configuration error (after cleanup, without entering the loop), status 2 on
connection-retry exhaustion (after cleanup). -/
theorem C9_exit_codes :
    (∀ events, runMain false events =
      ⟨some (.code 1), true, false, false, 0⟩) ∧
    (∀ (n : Nat) (c : Bool) (rest : List LoopEvent),
      runMain true (List.replicate n .ok ++ .interrupted c :: rest) =
        ⟨some (.code 0), true, c, true, n⟩) ∧
    (∀ (n : Nat) (rest : List LoopEvent),
      runMain true (List.replicate n .ok ++ .connectFail :: rest) =
        ⟨some (.code 2), true, false, true, n⟩) := by
  refine ⟨fun events => rfl, fun n c rest => ?_, fun n rest => ?_⟩ <;>
    simp [runMain, mainLoop_replicate_ok, mainLoop]

/-- Claim C10, counterexample: when the telemetry-buffer read raises, the
exception does propagate uncaught and the command buffer is not deleted,
but the interpreter then terminates with status 1 — which is one of the
documented codes 0, 1, 2, contradicting the claim that the exit status is
none of them. -/
theorem C10_counterexample_status_collides :
    (runMain true [.ok, .telemetryFail]).exit = some .uncaughtException ∧
    (runMain true [.ok, .telemetryFail]).cleanedBuffer = false ∧
    ¬(osExitStatus .uncaughtException ≠ 0 ∧ osExitStatus .uncaughtException ≠ 1 ∧
      osExitStatus .uncaughtException ≠ 2) := by
  decide

/-- Claim C10, amended: a telemetry-buffer read failure in a connected
iteration propagates uncaught out of the loop — the process terminates
without deleting the command buffer and not through any of the three
`sys.exit` paths — and the interpreter reports it with exit status 1,
which numerically collides with the documented startup-error code. -/
theorem C10_amended_uncaught_telemetry_error :
    (∀ (n : Nat) (rest : List LoopEvent),
      runMain true (List.replicate n .ok ++ .telemetryFail :: rest) =
        ⟨some .uncaughtException, false, false, true, n⟩) ∧
    osExitStatus .uncaughtException = 1 := by
  refine ⟨fun n rest => ?_, rfl⟩
  simp [runMain, mainLoop_replicate_ok, mainLoop]

end IotcPnp
